import Mathlib

/-!
Formal model of the Moodle integrated-channel client
(`integrated_channels/moodle/client.py`) and of the content-metadata
transmitter (`integrated_channels/moodle/transmitters/content_metadata.py`).

The Python code is shallowly embedded as pure Lean functions:

* JSON bodies are modelled by the inductive type `Json`; Python runtime
  exceptions that can occur on the modelled paths are the constructors of
  `PyErr` (an `AttributeError`, `KeyError`, `IndexError`, `TypeError`,
  `ValueError`, plus `requests.RequestException` and the
  `requests.HTTPError` raised by `raise_for_status`).
* Dynamically typed values that flow through the request wrapper are
  modelled by `PyVal` (an HTTP response object, a decoded JSON value, or a
  plain string).
* The network is an oracle `Oracle`: a function from the list of requests
  issued so far plus the current request to the vendor's `HttpResponse`.
* Client state (`self.token` and, as a ghost trace, the requests issued)
  is threaded explicitly: every operation maps a `ClientState` to a result
  `Except PyErr _` together with the new state.  The extra `aux` field is
  a ghost counter that the embedded code never touches; instrumentation
  (`countCalls`) uses it to count executions of a wrapped method.
* Python dictionaries are association lists (`Dict`); assignment
  (`dictSet`) overwrites the first binding of an existing key in place and
  appends new keys at the end, exactly like CPython's insertion-ordered
  dicts.  In-place mutation of a caller-supplied dict is modelled by
  returning the final dict alongside the result.
-/

namespace MoodleModel

/-- A decoded JSON value (the result of `json.loads` / `response.json()`). -/
inductive Json where
  | null : Json
  | bool (b : Bool) : Json
  | num (n : Int) : Json
  | str (s : String) : Json
  | arr (xs : List Json) : Json
  | obj (fields : List (String × Json)) : Json

/-- Python exceptions reachable on the modelled code paths. -/
inductive PyErr where
  | attributeError
  | keyError
  | indexError
  | typeError
  | valueError
  | requestException
  | httpError
  deriving DecidableEq

/-- `requests.HTTPError` (raised by `raise_for_status`) is a subclass of
`requests.RequestException`, so both constructors classify as a
`RequestException` being raised. -/
def PyErr.isRequestException : PyErr → Bool
  | .requestException => true
  | .httpError => true
  | _ => false

/-- An HTTP response: a status code and, when `response.text` parses as
JSON, the decoded body.  `body? = none` means the body is not valid JSON,
so `response.json()` / `json.loads(response.text)` raises `ValueError`. -/
structure HttpResponse where
  status : Nat
  body? : Option Json

/-- HTTP method of an outgoing request. -/
inductive RMethod where
  | get
  | post

/-- An outgoing HTTP request: method, the url string handed to `requests`
(for `_post` this already contains the encoded query string), the `params`
keyword argument and the `data` (form body) keyword argument. -/
structure Request where
  meth : RMethod
  url : String
  qparams : List (String × String)
  data : List (String × String)

/-- The vendor: responses are a function of the request history and the
current request. -/
abbrev Oracle : Type := List Request → Request → HttpResponse

/-- Client instance state: `self.token` plus the ghost request trace and
the ghost instrumentation counter `aux` (never touched by embedded code). -/
structure ClientState where
  token : Json
  calls : List Request
  aux : Nat

/-- The fields of the enterprise configuration that the client reads. -/
structure Config where
  moodle_base_url : String
  service_short_name : String
  username : String
  password : String

/-- A dynamically typed Python value as seen by `moodle_request_wrapper`:
what a wrapped method can return. -/
inductive PyVal where
  | resp (r : HttpResponse)
  | jsonV (j : Json)
  | str (s : String)

/-- Python truthiness of a decoded JSON value (`if not self.token`,
`if error_code`). -/
def pyTruthy : Json → Bool
  | .null => false
  | .bool b => b
  | .num n => !(n == 0)
  | .str s => !(s == "")
  | .arr xs => !xs.isEmpty
  | .obj fs => !fs.isEmpty

/-- Python `==` between a decoded JSON value and a string literal. -/
def jsonEqStr (j : Json) (s : String) : Bool :=
  match j with
  | .str t => t == s
  | _ => false

/-- Python `str()` of a decoded JSON value, as used by `urlencode` on
parameter values.  Only the `str` and `num` cases are reachable in the
modelled runs. -/
def jsonStr : Json → String
  | .null => "None"
  | .bool b => if b then "True" else "False"
  | .num n => toString n
  | .str s => s
  | .arr _ => "<list>"
  | .obj _ => "<dict>"

/-- Python `str()` of a `PyVal` (used when a value becomes a request
parameter). -/
def pyStr : PyVal → String
  | .resp _ => "<Response>"
  | .jsonV j => jsonStr j
  | .str s => s

/-- `value.json()`: succeeds only on a response object with a decodable
body (`ValueError` on an undecodable body); any non-response object has no
`json` attribute, so the call raises `AttributeError`. -/
def PyVal.jsonMethod : PyVal → Except PyErr Json
  | .resp r =>
    match r.body? with
    | some j => .ok j
    | none => .error .valueError
  | _ => .error .attributeError

/-- `body.get(k)`: only dicts have a `get` method; on a dict it returns
the value or Python `None` (modelled as `Option`). -/
def Json.dictGet : Json → String → Except PyErr (Option Json)
  | .obj fs, k => .ok (List.lookup k fs)
  | _, _ => .error .attributeError

/-- `body[k]` for a string subscript `k`: `KeyError` on a dict without the
key, `TypeError` on every non-dict JSON value. -/
def Json.idxS : Json → String → Except PyErr Json
  | .obj fs, k =>
    match List.lookup k fs with
    | some v => .ok v
    | none => .error .keyError
  | _, _ => .error .typeError

/-- `value[0]`: first element of a list (`IndexError` when empty), first
character of a string, `KeyError` on a dict (no key `0`), `TypeError`
otherwise. -/
def Json.idx0 : Json → Except PyErr Json
  | .arr [] => .error .indexError
  | .arr (x :: _) => .ok x
  | .obj _ => .error .keyError
  | .str s =>
    match s.data with
    | [] => .error .indexError
    | c :: _ => .ok (.str (String.mk [c]))
  | _ => .error .typeError

/-- The retry condition of the wrapper:
`if error_code and error_code == 'invalidtoken'`. -/
def isInvalidTokenCond : Option Json → Bool
  | none => false
  | some j => pyTruthy j && jsonEqStr j "invalidtoken"

/-! ## Python dictionaries -/

/-- A Python dict with string keys, insertion ordered. -/
abbrev Dict : Type := List (String × PyVal)

/-- `d[k] = v`: overwrite the (first) binding of `k` in place, or append a
new binding at the end — CPython insertion-order semantics. -/
def dictSet : Dict → String → PyVal → Dict
  | [], k, v => [(k, v)]
  | (k', v') :: rest, k, v =>
    if k' = k then (k, v) :: rest else (k', v') :: dictSet rest k v

/-- `d.update(other)`: apply `dictSet` for each binding of `other` in
order. -/
def dictUpdate (d : Dict) (other : Dict) : Dict :=
  other.foldl (fun acc p => dictSet acc p.1 p.2) d

/-! ## `urllib.parse.urlencode` (with `quote_plus`) -/

/-- Uppercase hexadecimal digit. -/
def hexDigit (n : Nat) : Char :=
  if n < 10 then Char.ofNat (48 + n) else Char.ofNat (55 + n)

/-- UTF-8 bytes of a Unicode code point, as naturals. -/
def utf8Bytes (n : Nat) : List Nat :=
  if n < 128 then [n]
  else if n < 2048 then [192 + n / 64, 128 + n % 64]
  else if n < 65536 then [224 + n / 4096, 128 + (n / 64) % 64, 128 + n % 64]
  else [240 + n / 262144, 128 + (n / 4096) % 64, 128 + (n / 64) % 64, 128 + n % 64]

/-- Characters `quote_plus` leaves unescaped (alphanumerics and `_.-~`). -/
def isUrlSafe (c : Char) : Bool :=
  c.isAlphanum || c == '_' || c == '.' || c == '-' || c == '~'

/-- `quote_plus` on a single character. -/
def quoteChar (c : Char) : List Char :=
  if isUrlSafe c then [c]
  else if c == ' ' then ['+']
  else (utf8Bytes c.toNat).foldr
    (fun b acc => '%' :: hexDigit (b / 16) :: hexDigit (b % 16) :: acc) []

/-- `urllib.parse.quote_plus`. -/
def quotePlus (s : String) : String :=
  String.mk (s.data.foldr (fun c acc => quoteChar c ++ acc) [])

/-- `urllib.parse.urlencode` over a sequence of key/value pairs (dicts are
passed as their binding sequence); values are passed through `str()`. -/
def urlencode (ps : List (String × PyVal)) : String :=
  String.intercalate "&"
    (ps.map (fun p => quotePlus p.1 ++ "=" ++ quotePlus (pyStr p.2)))

/-- `urllib.parse.urljoin base rel` for the one call site in the client,
where `rel` is an absolute path: the base's path is replaced by `rel`. -/
def urljoin (base rel : String) : String :=
  match base.splitOn "://" with
  | [scheme, rest] => scheme ++ "://" ++ rest.takeWhile (fun c => c != '/') ++ rel
  | _ => rel

/-! ## The client (`integrated_channels/moodle/client.py`) -/

/-- `MoodleAPIClient.MOODLE_API_PATH`. -/
def MOODLE_API_PATH : String := "/webservice/rest/server.php"

/-- Issue a request and record it in the ghost trace. -/
def doRequest (om : Oracle) (st : ClientState) (req : Request) :
    HttpResponse × ClientState :=
  (om st.calls req, { st with calls := st.calls ++ [req] })

/-- The token-exchange request of `_get_access_token`. -/
def tokenRequest (cfg : Config) : Request :=
  { meth := .post
    url := urljoin cfg.moodle_base_url "/login/token.php"
    qparams := [("service", cfg.service_short_name)]
    data := [("username", cfg.username), ("password", cfg.password)] }

/-- `MoodleAPIClient._get_access_token`: POST to the login endpoint,
`raise_for_status()`, decode the body and return `data['token']`;
`KeyError`/`ValueError` are converted to `requests.RequestException`,
while subscripting a non-dict body raises an uncaught `TypeError`. -/
def get_access_token (om : Oracle) (cfg : Config) (st : ClientState) :
    (Except PyErr Json) × ClientState :=
  let (resp, st) := doRequest om st (tokenRequest cfg)
  if 400 ≤ resp.status ∧ resp.status < 600 then (.error .httpError, st)
  else
    match resp.body? with
    | none => (.error .requestException, st)
    | some j =>
      match j with
      | .obj fs =>
        match List.lookup "token" fs with
        | some tv => (.ok tv, st)
        | none => (.error .requestException, st)
      | _ => (.error .typeError, st)

/-- Lines 20–21 of the wrapper:
`if not self.token: self.token = self._get_access_token()`. -/
def ensureToken (getTok : ClientState → (Except PyErr Json) × ClientState)
    (st : ClientState) : (Except PyErr Unit) × ClientState :=
  if pyTruthy st.token then (.ok (), st)
  else
    match getTok st with
    | (.ok t, st') => (.ok (), { st' with token := t })
    | (.error e, st') => (.error e, st')

/-- `moodle_request_wrapper` (client.py lines 18–29), generic over the
wrapped method `g` (whose extra mutable argument object, if any, is the
`σ` component — on the re-execution Python passes the *same, already
mutated* argument objects, hence `x'` below) and over the bound
`self._get_access_token`. -/
def moodle_request_wrapper {σ : Type}
    (g : σ → ClientState → (Except PyErr PyVal) × ClientState × σ)
    (getTok : ClientState → (Except PyErr Json) × ClientState)
    (x : σ) (st0 : ClientState) : (Except PyErr PyVal) × ClientState × σ :=
  match ensureToken getTok st0 with
  | (.error e, st) => (.error e, st, x)
  | (.ok _, st) =>
    match g x st with
    | (.error e, st', x') => (.error e, st', x')
    | (.ok response, st', x') =>
      match response.jsonMethod with
      | .error e => (.error e, st', x')
      | .ok body =>
        match body.dictGet "errorcode" with
        | .error e => (.error e, st', x')
        | .ok ec =>
          if isInvalidTokenCond ec then
            match getTok st' with
            | (.error e, st'') => (.error e, st'', x')
            | (.ok t, st'') => g x' { st'' with token := t }
          else (.ok response, st', x')

/-- Instrumentation: a method that behaves like `g` but bumps the ghost
counter `aux` once per execution (also on executions that raise). -/
def countCalls {σ : Type}
    (g : σ → ClientState → (Except PyErr PyVal) × ClientState × σ) :
    σ → ClientState → (Except PyErr PyVal) × ClientState × σ :=
  fun x st =>
    let r := g x st
    (r.1, { r.2.1 with aux := r.2.1.aux + 1 }, r.2.2)

/-- The body of `get_course_id` (client.py lines 70–86), without the
decorator: GET against the bare base url with the lookup parameters, then
`json.loads(response.text)['courses'][0]['id']`. -/
def get_course_id_raw (om : Oracle) (cfg : Config) (keyArg : PyVal)
    (st : ClientState) : (Except PyErr PyVal) × ClientState :=
  let params : List (String × String) :=
    [("wstoken", jsonStr st.token),
     ("wsfunction", "core_course_get_courses_by_field"),
     ("field", "shortname"),
     ("value", pyStr keyArg),
     ("moodlewsrestformat", "json")]
  let (resp, st) := doRequest om st
    { meth := .get, url := cfg.moodle_base_url, qparams := params, data := [] }
  match resp.body? with
  | none => (.error .valueError, st)
  | some j =>
    match j.idxS "courses" with
    | .error e => (.error e, st)
    | .ok courses =>
      match courses.idx0 with
      | .error e => (.error e, st)
      | .ok c0 =>
        match c0.idxS "id" with
        | .error e => (.error e, st)
        | .ok idj => (.ok (.jsonV idj), st)

/-- `self.get_course_id(key)` as callers see it: the body wrapped by
`moodle_request_wrapper`. -/
def get_course_id (om : Oracle) (cfg : Config) (keyArg : PyVal)
    (st : ClientState) : (Except PyErr PyVal) × ClientState :=
  let r := moodle_request_wrapper
    (fun (_ : Unit) s =>
      let p := get_course_id_raw om cfg keyArg s
      (p.1, p.2, ()))
    (get_access_token om cfg) () st
  (r.1, r.2.1)

/-- `MoodleAPIClient._post` (lines 134–148): merge the common params with
the additional ones and POST to
`url ++ MOODLE_API_PATH ++ "?" ++ urlencode params`. -/
def post_raw (om : Oracle) (st : ClientState) (url : String)
    (additional_params : Dict) : HttpResponse × ClientState :=
  let params : Dict :=
    dictUpdate [("wstoken", .jsonV st.token), ("moodlewsrestformat", .str "json")]
      additional_params
  doRequest om st
    { meth := .post
      url := url ++ MOODLE_API_PATH ++ "?" ++ urlencode params
      qparams := []
      data := [] }

/-- The body of `create_content_metadata` (lines 89–108): set
`serialized_data['wsfunction']` and `_post` to the base url. -/
def create_content_metadata_raw (om : Oracle) (cfg : Config)
    (d : Dict) (st : ClientState) : (Except PyErr PyVal) × ClientState × Dict :=
  let d := dictSet d "wsfunction" (.str "core_course_create_courses")
  let (resp, st) := post_raw om st cfg.moodle_base_url d
  (.ok (.resp resp), st, d)

/-- `create_content_metadata` as callers see it (wrapped). -/
def create_content_metadata (om : Oracle) (cfg : Config)
    (d : Dict) (st : ClientState) : (Except PyErr PyVal) × ClientState × Dict :=
  moodle_request_wrapper (create_content_metadata_raw om cfg)
    (get_access_token om cfg) d st

/-- The string `'shortname'` as a character list (for Python's `in`). -/
def shortnameChars : List Char := "shortname".data

/-- Python's substring test `pat in s`. -/
def infixCheck (pat : List Char) : List Char → Bool
  | [] => pat.isEmpty
  | c :: rest => pat.isPrefixOf (c :: rest) || infixCheck pat rest

/-- Fuel-indexed core of Python's `str.replace` (replace all
non-overlapping occurrences, left to right). -/
def replaceCore (pat rep : List Char) : Nat → List Char → List Char
  | 0, s => s
  | _, [] => []
  | fuel + 1, c :: rest =>
    if pat.isPrefixOf (c :: rest) then
      rep ++ replaceCore pat rep fuel ((c :: rest).drop pat.length)
    else c :: replaceCore pat rep fuel rest

/-- Python's `s.replace(pat, rep)` for a non-empty `pat` (each step
consumes at least one character, so `s.length` fuel suffices). -/
def pyReplace (s pat rep : String) : String :=
  String.mk (replaceCore pat.data rep.data s.data.length s.data)

/-- The loop of `update_content_metadata` (lines 112–115) over the
snapshot `list(serialized_data)` of keys: for every key containing
`'shortname'`, resolve the id through the wrapped `get_course_id` and
assign it under `key.replace('shortname', 'id')`. -/
def updateLoop (om : Oracle) (cfg : Config) :
    List String → ClientState → Dict → (Except PyErr Unit) × ClientState × Dict
  | [], st, d => (.ok (), st, d)
  | k :: ks, st, d =>
    if infixCheck shortnameChars k.data then
      match List.lookup k d with
      | none => (.error .keyError, st, d)
      | some v =>
        match get_course_id om cfg v st with
        | (.error e, st') => (.error e, st', d)
        | (.ok idv, st') =>
          updateLoop om cfg ks st' (dictSet d (pyReplace k "shortname" "id") (.jsonV
            (match idv with
             | .jsonV j => j
             | _ => .null)))
    else updateLoop om cfg ks st d

/-- The body of `update_content_metadata` (lines 111–118). -/
def update_content_metadata_raw (om : Oracle) (cfg : Config)
    (d : Dict) (st : ClientState) : (Except PyErr PyVal) × ClientState × Dict :=
  match updateLoop om cfg (d.map Prod.fst) st d with
  | (.error e, st, d) => (.error e, st, d)
  | (.ok _, st, d) =>
    let d := dictSet d "wsfunction" (.str "core_course_update_courses")
    let (resp, st) := post_raw om st cfg.moodle_base_url d
    (.ok (.resp resp), st, d)

/-- `update_content_metadata` as callers see it (wrapped). -/
def update_content_metadata (om : Oracle) (cfg : Config)
    (d : Dict) (st : ClientState) : (Except PyErr PyVal) × ClientState × Dict :=
  moodle_request_wrapper (update_content_metadata_raw om cfg)
    (get_access_token om cfg) d st

/-- The id-collection loop of `delete_content_metadata` (lines 123–126):
resolve an id for every key containing `'shortname'` and accumulate
`('courseids[]', id)` pairs. -/
def deleteLoop (om : Oracle) (cfg : Config) :
    List String → ClientState → Dict → List (String × PyVal) →
      (Except PyErr (List (String × PyVal))) × ClientState
  | [], st, _, acc => (.ok acc, st)
  | k :: ks, st, d, acc =>
    if infixCheck shortnameChars k.data then
      match List.lookup k d with
      | none => (.error .keyError, st)
      | some v =>
        match get_course_id om cfg v st with
        | (.error e, st') => (.error e, st')
        | (.ok idv, st') =>
          deleteLoop om cfg ks st' d (acc ++ [("courseids[]",
            PyVal.jsonV (match idv with
             | .jsonV j => j
             | _ => .null))])
    else deleteLoop om cfg ks st d acc

/-- The body of `delete_content_metadata` (lines 121–132): collect the
ids, then `_post` to `base_url ++ "?" ++ urlencode(course_ids_to_delete)`
with the `wsfunction` param. -/
def delete_content_metadata_raw (om : Oracle) (cfg : Config)
    (d : Dict) (st : ClientState) : (Except PyErr PyVal) × ClientState × Dict :=
  match deleteLoop om cfg (d.map Prod.fst) st d [] with
  | (.error e, st) => (.error e, st, d)
  | (.ok ids, st) =>
    let params : Dict := [("wsfunction", .str "core_course_delete_courses")]
    let url := cfg.moodle_base_url ++ "?" ++ urlencode ids
    let (resp, st) := post_raw om st url params
    (.ok (.resp resp), st, d)

/-- `delete_content_metadata` as callers see it (wrapped). -/
def delete_content_metadata (om : Oracle) (cfg : Config)
    (d : Dict) (st : ClientState) : (Except PyErr PyVal) × ClientState × Dict :=
  moodle_request_wrapper (delete_content_metadata_raw om cfg)
    (get_access_token om cfg) d st

/-! ## The transmitter
(`integrated_channels/moodle/transmitters/content_metadata.py`) -/

/-- One content-metadata item: a field-name/value mapping. -/
abbrev Item : Type := List (String × PyVal)

/-- Decimal representation of a natural number, as produced by Python's
`'...[{0}]...'.format(index)`. -/
def numStr (n : Nat) : String := (Nat.toDigits 10 n).asString

/-- The key `'courses[{0}][{1}]'.format(index, key)` built by
`_prepare_items_for_transmission`. -/
def mkKey (i : Nat) (k : String) : String :=
  "courses[" ++ numStr i ++ "][" ++ k ++ "]"

/-- The inner loop `for key in item: items[new_key] = item[key]`,
writing into the (single, shared) accumulator dict. -/
def processItem (n : Nat) (acc : Dict) : Item → Dict
  | [] => acc
  | (k, v) :: rest => processItem n (dictSet acc (mkKey n k) v) rest

/-- The outer loop `for index, item in enumerate(channel_metadata_items)`,
threading the one shared `items` dict. -/
def processAll : Nat → Dict → List Item → Dict
  | _, acc, [] => acc
  | n, acc, it :: rest => processAll (n + 1) (processItem n acc it) rest

/-- `MoodleContentMetadataTransmitter._prepare_items_for_transmission`:
the `items` dict is created once, *before* the loop, and
`course_list.append(items)` appends a reference to that same dict on every
iteration; at return time the list therefore holds `N` aliases of the
final accumulated dict, which is how the returned value is materialized
here. -/
def _prepare_items_for_transmission (items : List Item) : List Dict :=
  List.replicate items.length (processAll 0 [] items)

/-! ## Concrete fixtures used by the evaluation theorems -/

/-- A concrete configuration. -/
def cfgEx : Config :=
  { moodle_base_url := "http://m"
    service_short_name := "svc"
    username := "u"
    password := "p" }

/-- A concrete starting state with a cached (truthy) token. -/
def stEx : ClientState := { token := .str "TOK", calls := [], aux := 0 }

/-- A vendor that always answers 200 with an empty JSON object. -/
def plainOracle : Oracle :=
  fun _ _ => { status := 200, body? := some (.obj []) }

/-- A vendor whose course lookup payload has an empty course list. -/
def emptyCoursesOracle : Oracle :=
  fun _ _ => { status := 200, body? := some (.obj [("courses", .arr [])]) }

/-- A vendor whose course lookup payload contains one course with id 4. -/
def oneCourseOracle : Oracle :=
  fun _ _ =>
    { status := 200
      body? := some (.obj [("courses", .arr [.obj [("id", .num 4)]])]) }

/-- The two-item batch of the spec's encoding scenario. -/
def exItems : List Item :=
  [[("shortname", PyVal.str "CS101")],
   [("shortname", PyVal.str "CS102"), ("fullname", PyVal.str "Intro")]]

/-! ## Dictionary lemmas -/

theorem lookup_dictSet_self (d : Dict) (k : String) (v : PyVal) :
    List.lookup k (dictSet d k v) = some v := by
  induction d with
  | nil => simp [dictSet]
  | cons p rest ih =>
    obtain ⟨k', v'⟩ := p
    by_cases h : k' = k
    · subst h
      simp [dictSet]
    · have hb : (k == k') = false := beq_eq_false_iff_ne.2 (Ne.symm h)
      simp [dictSet, h, List.lookup, hb, ih]

theorem lookup_dictSet_ne (d : Dict) (k k' : String) (v : PyVal)
    (h : k' ≠ k) : List.lookup k' (dictSet d k v) = List.lookup k' d := by
  have hb : (k' == k) = false := beq_eq_false_iff_ne.2 h
  induction d with
  | nil => simp [dictSet, List.lookup, hb]
  | cons p rest ih =>
    obtain ⟨k₀, v₀⟩ := p
    by_cases h0 : k₀ = k
    · subst h0
      simp [dictSet, List.lookup, hb]
    · simp [dictSet, h0, List.lookup, ih]

/-! ## Decimal strings: the keys `courses[i][k]` are pairwise distinct -/

/-- Numeric value of a decimal digit character. -/
def digitVal (c : Char) : Nat := c.toNat - 48

/-- Value of a most-significant-first digit string, with accumulator. -/
def numVal (a : Nat) : List Char → Nat
  | [] => a
  | c :: cs => numVal (a * 10 + digitVal c) cs

theorem numVal_digitChar (m : Nat) (h : m < 10) :
    digitVal (Nat.digitChar m) = m := by
  have : ∀ x, x < 10 → digitVal (Nat.digitChar x) = x := by decide
  exact this m h

theorem toDigitsCore_succ (b fuel n : Nat) (ds : List Char) :
    Nat.toDigitsCore b (fuel + 1) n ds =
      if n / b = 0 then Nat.digitChar (n % b) :: ds
      else Nat.toDigitsCore b fuel (n / b) (Nat.digitChar (n % b) :: ds) := rfl

theorem toDigitsCore_numVal : ∀ n fuel ds, n < 10 ^ fuel →
    numVal 0 (Nat.toDigitsCore 10 fuel n ds) = numVal n ds := by
  intro n
  induction n using Nat.strong_induction_on with
  | _ n ih =>
    intro fuel ds hlt
    cases fuel with
    | zero =>
      have hn0 : n = 0 := by
        simpa using hlt
      subst hn0
      simp [Nat.toDigitsCore]
    | succ f =>
      rw [toDigitsCore_succ]
      have hm : n % 10 < 10 := by omega
      by_cases h0 : n / 10 = 0
      · rw [if_pos h0]
        have hv : (0 * 10 + digitVal (Nat.digitChar (n % 10))) = n := by
          rw [numVal_digitChar _ hm]
          omega
        calc numVal 0 (Nat.digitChar (n % 10) :: ds)
            = numVal (0 * 10 + digitVal (Nat.digitChar (n % 10))) ds := rfl
          _ = numVal n ds := by rw [hv]
      · rw [if_neg h0]
        have hdiv : n / 10 < n := Nat.div_lt_self (by omega) (by norm_num)
        have hbound : n / 10 < 10 ^ f := by
          apply (Nat.div_lt_iff_lt_mul (by norm_num)).2
          calc n < 10 ^ (f + 1) := hlt
            _ = 10 ^ f * 10 := by ring
        rw [ih (n / 10) hdiv f _ hbound]
        have hv : ((n / 10) * 10 + digitVal (Nat.digitChar (n % 10))) = n := by
          rw [numVal_digitChar _ hm]
          omega
        calc numVal (n / 10) (Nat.digitChar (n % 10) :: ds)
            = numVal ((n / 10) * 10 + digitVal (Nat.digitChar (n % 10))) ds := rfl
          _ = numVal n ds := by rw [hv]

theorem numVal_numStr (n : Nat) : numVal 0 (numStr n).data = n := by
  have h1 : n < 10 ^ (n + 1) := by
    calc n < 10 ^ n := Nat.lt_pow_self (by norm_num) n
      _ ≤ 10 ^ (n + 1) := Nat.pow_le_pow_right (by norm_num) (Nat.le_succ n)
  have h2 := toDigitsCore_numVal n (n + 1) [] h1
  calc numVal 0 (numStr n).data
      = numVal 0 (Nat.toDigitsCore 10 (n + 1) n []) := rfl
    _ = numVal n [] := h2
    _ = n := rfl

theorem numStr_data_inj {m n : Nat}
    (h : (numStr m).data = (numStr n).data) : m = n := by
  have := congrArg (numVal 0) h
  rwa [numVal_numStr, numVal_numStr] at this

theorem toDigitsCore_lt93 : ∀ fuel n ds, (∀ c ∈ ds, c.toNat < 93) →
    ∀ c ∈ Nat.toDigitsCore 10 fuel n ds, c.toNat < 93 := by
  intro fuel
  induction fuel with
  | zero =>
    intro n ds h
    simpa [Nat.toDigitsCore] using h
  | succ f ih =>
    intro n ds h
    have hd : (Nat.digitChar (n % 10)).toNat < 93 := by
      have hm : n % 10 < 10 := by omega
      have : ∀ x, x < 10 → (Nat.digitChar x).toNat < 93 := by decide
      exact this _ hm
    have hcons : ∀ c ∈ Nat.digitChar (n % 10) :: ds, c.toNat < 93 := by
      intro c hc
      rcases List.mem_cons.1 hc with h1 | h1
      · subst h1; exact hd
      · exact h c h1
    rw [toDigitsCore_succ]
    by_cases h0 : n / 10 = 0
    · rw [if_pos h0]; exact hcons
    · rw [if_neg h0]; exact ih (n / 10) _ hcons

theorem numStr_lt93 (n : Nat) : ∀ c ∈ (numStr n).data, c.toNat < 93 := by
  have := toDigitsCore_lt93 (n + 1) n [] (by simp)
  simpa [numStr, Nat.toDigits, List.asString] using this

theorem append_sep_inj : ∀ (xs ys rest rest' : List Char),
    (∀ c ∈ xs, c.toNat < 93) → (∀ c ∈ ys, c.toNat < 93) →
    xs ++ ']' :: rest = ys ++ ']' :: rest' → xs = ys ∧ rest = rest' := by
  intro xs
  induction xs with
  | nil =>
    intro ys rest rest' _ hy h
    cases ys with
    | nil => simpa using h
    | cons y ys =>
      exfalso
      simp only [List.nil_append, List.cons_append, List.cons.injEq] at h
      have h93 : y.toNat < 93 := hy y (by simp)
      rw [← h.1] at h93
      simp at h93
  | cons x xs ih =>
    intro ys rest rest' hx hy h
    cases ys with
    | nil =>
      exfalso
      simp only [List.nil_append, List.cons_append, List.cons.injEq] at h
      have h93 : x.toNat < 93 := hx x (by simp)
      rw [h.1] at h93
      simp at h93
    | cons y ys =>
      simp only [List.cons_append, List.cons.injEq] at h
      obtain ⟨h1, h2⟩ := h
      obtain ⟨h3, h4⟩ := ih ys rest rest'
        (fun c hc => hx c (List.mem_cons_of_mem _ hc))
        (fun c hc => hy c (List.mem_cons_of_mem _ hc)) h2
      exact ⟨by rw [h1, h3], h4⟩

theorem mkKey_inj {i j : Nat} {k k' : String}
    (h : mkKey i k = mkKey j k') : i = j ∧ k = k' := by
  have hd := congrArg String.data h
  simp only [mkKey, String.data_append] at hd
  have hsplit : (numStr i).data ++ (']' :: ('[' :: (k.data ++ [']'])))
      = (numStr j).data ++ (']' :: ('[' :: (k'.data ++ [']']))) := by
    apply @List.append_cancel_left _ ("courses[".data) _ _
    simpa using hd
  obtain ⟨hnum, hrest⟩ := append_sep_inj _ _ _ _
    (numStr_lt93 i) (numStr_lt93 j) hsplit
  refine ⟨numStr_data_inj hnum, ?_⟩
  simp only [List.cons.injEq, true_and] at hrest
  have hk : k.data = k'.data := List.append_cancel_right hrest
  exact congrArg String.mk hk

/-! ## Behaviour of the encoding loops -/

theorem processItem_preserve (n : Nat) (K : String) :
    ∀ (it : Item) (acc : Dict), (∀ p ∈ it, mkKey n p.1 ≠ K) →
    List.lookup K (processItem n acc it) = List.lookup K acc := by
  intro it
  induction it with
  | nil =>
    intro acc _
    rfl
  | cons p rest ih =>
    intro acc h
    obtain ⟨k, v⟩ := p
    simp only [processItem]
    rw [ih _ (fun q hq => h q (List.mem_cons_of_mem _ hq))]
    exact lookup_dictSet_ne _ _ _ _ (Ne.symm (h (k, v) (List.mem_cons_self _ _)))

theorem processItem_binds (n : Nat) :
    ∀ (it : Item) (acc : Dict) (k : String) (v : PyVal),
    (k, v) ∈ it → (it.map Prod.fst).Nodup →
    List.lookup (mkKey n k) (processItem n acc it) = some v := by
  intro it
  induction it with
  | nil =>
    intro acc k v h _
    exact absurd h (List.not_mem_nil _)
  | cons p rest ih =>
    intro acc k v hmem hnd
    obtain ⟨k0, v0⟩ := p
    have hnd2 : (k0 :: rest.map Prod.fst).Nodup := by
      simpa using hnd
    have hnd' := List.nodup_cons.1 hnd2
    simp only [processItem]
    rcases List.mem_cons.1 hmem with he | hm
    · injection he with hk hv
      subst hk
      subst hv
      rw [processItem_preserve n (mkKey n k) rest _ ?_]
      · exact lookup_dictSet_self _ _ _
      · intro q hq heq
        obtain ⟨_, hq1⟩ := mkKey_inj heq
        exact hnd'.1 (hq1 ▸ List.mem_map_of_mem Prod.fst hq)
    · exact ih _ _ _ hm hnd'.2

theorem processAll_preserve :
    ∀ (its : List Item) (m : Nat) (acc : Dict) (n : Nat) (k : String),
    n < m → List.lookup (mkKey n k) (processAll m acc its)
      = List.lookup (mkKey n k) acc := by
  intro its
  induction its with
  | nil =>
    intro m acc n k _
    rfl
  | cons it rest ih =>
    intro m acc n k h
    simp only [processAll]
    rw [ih (m + 1) _ n k (by omega)]
    apply processItem_preserve
    intro q _ heq
    obtain ⟨hm', _⟩ := mkKey_inj heq
    omega

theorem processAll_binds :
    ∀ (its : List Item) (m : Nat) (acc : Dict) (i : Nat) (it : Item),
    its.get? i = some it → (∀ j ∈ its, (j.map Prod.fst).Nodup) →
    ∀ (k : String) (v : PyVal), (k, v) ∈ it →
    List.lookup (mkKey (m + i) k) (processAll m acc its) = some v := by
  intro its
  induction its with
  | nil =>
    intro m acc i it h
    simp at h
  | cons it0 rest ih =>
    intro m acc i it hget hnd k v hkv
    cases i with
    | zero =>
      have hit : it = it0 := by
        simpa using hget.symm
      subst hit
      simp only [processAll, Nat.add_zero]
      rw [processAll_preserve rest (m + 1) _ m k (by omega)]
      exact processItem_binds m it acc k v hkv (hnd it (List.mem_cons_self _ _))
    | succ i' =>
      simp only [processAll]
      have harith : m + (i' + 1) = (m + 1) + i' := by omega
      rw [harith]
      exact ih (m + 1) _ i' it (by simpa using hget)
        (fun j hj => hnd j (List.mem_cons_of_mem _ hj)) k v hkv

theorem getD_replicate {α : Type} (a dflt : α) : ∀ (n j : Nat), j < n →
    (List.replicate n a).getD j dflt = a := by
  intro n
  induction n with
  | zero =>
    intro j h
    omega
  | succ n ih =>
    intro j h
    cases j with
    | zero => rfl
    | succ j' => exact ih j' (by omega)

/-- C4: for every input sequence of content-metadata items and every item
at 0-based position `i`, the encoding produced by
`_prepare_items_for_transmission` maps the key `courses[i][k]` to item
`i`'s value for `k`, for every field `k` of that item — in every group of
the returned list (the groups all alias one dict, so the binding is
visible in each of them, in particular in group `i`). -/
theorem claim_C4_encode_binds (items : List Item)
    (hnd : ∀ it ∈ items, (it.map Prod.fst).Nodup)
    (i : Nat) (it : Item) (hi : items.get? i = some it)
    (k : String) (v : PyVal) (hkv : (k, v) ∈ it)
    (j : Nat) (hj : j < (_prepare_items_for_transmission items).length) :
    List.lookup (mkKey i k) ((_prepare_items_for_transmission items).getD j [])
      = some v := by
  have hj' : j < items.length := by
    simpa [_prepare_items_for_transmission] using hj
  unfold _prepare_items_for_transmission
  rw [getD_replicate _ _ _ _ hj']
  have := processAll_binds items 0 [] i it hi hnd k v hkv
  simpa using this

/-- C4 witness: in the spec's two-item scenario the encoding binds
`courses[1][fullname]` to `Intro`. -/
theorem claim_C4_encode_binds_witness :
    List.lookup (mkKey 1 "fullname")
      ((_prepare_items_for_transmission exItems).getD 1 []) = some (.str "Intro") :=
  claim_C4_encode_binds exItems (by decide) 1 _ rfl "fullname" (.str "Intro")
    (List.Mem.tail _ (List.Mem.head _)) 1 (by decide)

/-- C3: evaluation of the encoder at the spec's two-item scenario.  The
`items` dict is shared across iterations, so the batch encodes to two
aliases of one accumulated dict: group 0 equals group 1 and contains item
1's key `courses[1][shortname]` — contradicting the claim that group `i`
holds exactly the keys of item `i`. -/
theorem claim_C3_shared_accumulator :
    (_prepare_items_for_transmission exItems).length = 2 ∧
    (_prepare_items_for_transmission exItems).getD 0 []
      = (_prepare_items_for_transmission exItems).getD 1 [] ∧
    List.lookup (mkKey 1 "shortname")
      ((_prepare_items_for_transmission exItems).getD 0 [])
      = some (.str "CS102") :=
  ⟨rfl, rfl, rfl⟩

/-! ## The authenticated-call wrapper: retry discipline -/

theorem ensureToken_aux (getTok : ClientState → (Except PyErr Json) × ClientState)
    (hT : ∀ s, ((getTok s).2).aux = s.aux) (st : ClientState) :
    ((ensureToken getTok st).2).aux = st.aux := by
  unfold ensureToken
  by_cases h : pyTruthy st.token
  · rw [if_pos h]
  · rw [if_neg h]
    have haux := hT st
    rcases hg : getTok st with ⟨e, st'⟩
    rw [hg] at haux
    cases e <;> simpa using haux

theorem countCalls_aux {σ : Type}
    (g : σ → ClientState → (Except PyErr PyVal) × ClientState × σ)
    (hg : ∀ (x : σ) s, ((g x s).2.1).aux = s.aux)
    (x : σ) (s : ClientState) :
    ((countCalls g x s).2.1).aux = s.aux + 1 := by
  unfold countCalls
  simp [hg x s]

/-- The wrapper's retry condition: the first execution of the wrapped
method returned a value whose decoded body carried
`errorcode == 'invalidtoken'`. -/
def wrapperCond {σ : Type}
    (g : σ → ClientState → (Except PyErr PyVal) × ClientState × σ)
    (getTok : ClientState → (Except PyErr Json) × ClientState)
    (x : σ) (st : ClientState) : Prop :=
  ∃ st1 r st2 x2 b ec,
    ensureToken getTok st = (.ok (), st1) ∧
    g x st1 = (.ok r, st2, x2) ∧
    r.jsonMethod = .ok b ∧
    b.dictGet "errorcode" = .ok ec ∧
    isInvalidTokenCond ec = true

/-- C1: for every wrapped client operation (in particular `create_items`,
`update_items`, `delete_items` and `lookup_course_id`, all of which are
`moodle_request_wrapper` applied to their bodies), one invocation of the
wrapper executes the wrapped method at most twice, and executes it a
second time only when the first execution's response body decodes with
error code equal to the token-expired sentinel `invalidtoken`; in
particular a second consecutive expired-token response can never trigger a
third execution.  Executions are counted by instrumenting the method with
the ghost counter `aux`, which neither the method nor the token fetch
touches. -/
theorem claim_C1_single_retry {σ : Type}
    (g : σ → ClientState → (Except PyErr PyVal) × ClientState × σ)
    (getTok : ClientState → (Except PyErr Json) × ClientState)
    (x : σ) (st : ClientState)
    (hg : ∀ (y : σ) s, ((g y s).2.1).aux = s.aux)
    (hT : ∀ s, ((getTok s).2).aux = s.aux) :
    ((moodle_request_wrapper (countCalls g) getTok x st).2.1).aux ≤ st.aux + 2 ∧
    (¬ wrapperCond (countCalls g) getTok x st →
      ((moodle_request_wrapper (countCalls g) getTok x st).2.1).aux ≤ st.aux + 1) := by
  have hcg : ∀ (y : σ) s, ((countCalls g y s).2.1).aux = s.aux + 1 :=
    countCalls_aux g hg
  unfold moodle_request_wrapper
  rcases h1 : ensureToken getTok st with ⟨e1, st1⟩
  have ha1 : st1.aux = st.aux := by
    have := ensureToken_aux getTok hT st
    rw [h1] at this
    exact this
  cases e1 with
  | error e =>
    simp [ha1]
  | ok u =>
    cases u
    rcases h2 : countCalls g x st1 with ⟨e2, st2, x2⟩
    have ha2 : st2.aux = st.aux + 1 := by
      have := hcg x st1
      rw [h2] at this
      simpa [ha1] using this
    cases e2 with
    | error e =>
      simp [h2, ha2]
    | ok r =>
      rcases h3 : r.jsonMethod with e3 | b
      · simp [h2, h3, ha2]
      · rcases h4 : b.dictGet "errorcode" with e4 | ec
        · simp [h2, h3, h4, ha2]
        · by_cases h5 : isInvalidTokenCond ec = true
          · have hcond : wrapperCond (countCalls g) getTok x st :=
              ⟨st1, r, st2, x2, b, ec, h1, h2, h3, h4, h5⟩
            rcases h6 : getTok st2 with ⟨e6, st6⟩
            have ha6 : st6.aux = st.aux + 1 := by
              have := hT st2
              rw [h6] at this
              simpa [ha2] using this
            cases e6 with
            | error e =>
              simp [h2, h3, h4, h5, h6, ha6]
            | ok t =>
              have ha7 : ((countCalls g x2 { st6 with token := t }).2.1).aux
                  = st.aux + 2 := by
                have := hcg x2 { st6 with token := t }
                simpa [ha6] using this
              constructor
              · simp [h2, h3, h4, h5, h6, ha7]
              · intro hn
                exact absurd hcond hn
          · simp [h2, h3, h4, h5, ha2]

/-- C1 witness: a concrete run (method always answers 200 with an empty
JSON object, the token fetch always succeeds) executes the method at most
twice. -/
theorem claim_C1_single_retry_witness :
    ((moodle_request_wrapper
        (countCalls (fun (_ : Unit) s =>
          (.ok (.resp { status := 200, body? := some (.obj []) }), s, ())))
        (fun s => (.ok (.str "T"), s)) () stEx).2.1).aux ≤ stEx.aux + 2 :=
  (claim_C1_single_retry _ _ () stEx (fun _ _ => rfl) (fun _ => rfl)).1

/-- C6: whenever the first execution of a wrapped call returns a response
whose decoded body carries `errorcode == 'invalidtoken'`, the wrapper
fetches a fresh token, unconditionally overwrites the cached token with
it, re-executes the wrapped method once (with the same — already mutated —
argument objects), and hands that second execution's outcome back to the
caller verbatim, whatever its own error state. -/
theorem claim_C6_refresh_and_resend {σ : Type}
    (g : σ → ClientState → (Except PyErr PyVal) × ClientState × σ)
    (getTok : ClientState → (Except PyErr Json) × ClientState)
    (x x2 : σ) (st st1 st2 st3 : ClientState)
    (r : PyVal) (b : Json) (ec : Option Json) (t : Json)
    (h1 : ensureToken getTok st = (.ok (), st1))
    (h2 : g x st1 = (.ok r, st2, x2))
    (h3 : r.jsonMethod = .ok b)
    (h4 : b.dictGet "errorcode" = .ok ec)
    (h5 : isInvalidTokenCond ec = true)
    (h6 : getTok st2 = (.ok t, st3)) :
    moodle_request_wrapper g getTok x st = g x2 { st3 with token := t } := by
  unfold moodle_request_wrapper
  rw [h1]
  dsimp only
  rw [h2]
  dsimp only
  rw [h3]
  dsimp only
  rw [h4]
  dsimp only
  simp only [h5, if_true]
  rw [h6]

/-- A response whose body carries the token-expired sentinel. -/
def invalidTokenResp : HttpResponse :=
  { status := 200, body? := some (.obj [("errorcode", .str "invalidtoken")]) }

/-- A wrapped-method body that always returns `invalidTokenResp`. -/
def invalidTokenMethod :
    Unit → ClientState → (Except PyErr PyVal) × ClientState × Unit :=
  fun _ s => (.ok (.resp invalidTokenResp), s, ())

/-- C6 witness: concrete run in which the body always carries the
`invalidtoken` sentinel; the wrapper re-executes once with the fresh
token `T2`. -/
theorem claim_C6_refresh_and_resend_witness :
    moodle_request_wrapper invalidTokenMethod
        (fun s => (.ok (.str "T2"), s)) () stEx
      = invalidTokenMethod () { stEx with token := .str "T2" } :=
  claim_C6_refresh_and_resend _ _ () () stEx stEx stEx stEx _ _ _ _
    rfl rfl rfl rfl rfl rfl

/-! ## The token exchange -/

/-- Does a response body decode to a JSON object carrying a `token`
field? -/
def hasTokenField (r : HttpResponse) : Bool :=
  match r.body? with
  | some (.obj fs) => (List.lookup "token" fs).isSome
  | _ => false

/-- C7 counterexample: on HTTP 200 with a JSON *array* body — a decoded
response body that lacks a token field — `_get_access_token` fails with an
uncaught `TypeError` from `data['token']`, not with the typed
authentication failure (`requests.RequestException`) the claim
requires. -/
theorem claim_C7_counterexample :
    (get_access_token (fun _ _ => { status := 200, body? := some (.arr []) })
        cfgEx stEx).1 = .error .typeError ∧
    PyErr.isRequestException .typeError = false :=
  ⟨rfl, rfl⟩

/-- The response the vendor gives to the one token-exchange request that
`_get_access_token` issues from state `st`. -/
def tokenResponse (om : Oracle) (cfg : Config) (st : ClientState) :
    HttpResponse :=
  om st.calls (tokenRequest cfg)

/-- Did the token-exchange response body successfully decode to a JSON
value that is *not* an object?  (`raise_for_status` precedes decoding, so
this only matters when the status check passed.) -/
def nonObjectBody (r : HttpResponse) : Bool :=
  match r.body? with
  | some (.obj _) => false
  | some _ => true
  | none => false

/-- C7 (amended): whenever the token-exchange response has an HTTP error
status, or its body is not a JSON object carrying a `token` field, the
exchange fails and never returns such a body as a token.  The failure is
the typed `requests.RequestException` (the model's authentication error,
of which `raise_for_status`'s `HTTPError` is a subclass) in every case —
error status, undecodable body, or decoded JSON object without a `token`
field, including HTTP 200 with an error-object payload — *except* when
the status check passes and the body decodes to non-object JSON (e.g. a
list), where `data['token']` raises an uncaught `TypeError` instead. -/
theorem claim_C7_token_exchange_failure (om : Oracle) (cfg : Config)
    (st : ClientState)
    (h : (400 ≤ (tokenResponse om cfg st).status ∧
            (tokenResponse om cfg st).status < 600) ∨
         hasTokenField (tokenResponse om cfg st) = false) :
    ((¬(400 ≤ (tokenResponse om cfg st).status ∧
          (tokenResponse om cfg st).status < 600) ∧
        nonObjectBody (tokenResponse om cfg st) = true) →
      (get_access_token om cfg st).1 = .error .typeError) ∧
    (((400 ≤ (tokenResponse om cfg st).status ∧
          (tokenResponse om cfg st).status < 600) ∨
        nonObjectBody (tokenResponse om cfg st) = false) →
      ∃ e, (get_access_token om cfg st).1 = .error e ∧
        PyErr.isRequestException e = true) ∧
    (∀ tv, (get_access_token om cfg st).1 ≠ .ok tv) := by
  unfold tokenResponse at h ⊢
  unfold get_access_token doRequest
  dsimp only
  generalize om st.calls (tokenRequest cfg) = R at h ⊢
  obtain ⟨s, b⟩ := R
  by_cases hs : 400 ≤ s ∧ s < 600
  · refine ⟨?_, ?_, ?_⟩
    · rintro ⟨hns, _⟩
      exact absurd hs hns
    · intro _
      exact ⟨.httpError, by simp [hs], rfl⟩
    · intro tv htv
      simp [hs] at htv
  · rcases b with _ | j
    · refine ⟨?_, ?_, ?_⟩
      · rintro ⟨_, hno⟩
        simp [nonObjectBody] at hno
      · intro _
        exact ⟨.requestException, by simp [hs], rfl⟩
      · intro tv htv
        simp [hs] at htv
    · cases j with
      | obj fs =>
        rcases hl : List.lookup "token" fs with _ | tv0
        · refine ⟨?_, ?_, ?_⟩
          · rintro ⟨_, hno⟩
            simp [nonObjectBody] at hno
          · intro _
            exact ⟨.requestException, by simp [hs, hl], rfl⟩
          · intro tv htv
            simp [hs, hl] at htv
        · exfalso
          rcases h with h | h
          · exact hs h
          · simp [hasTokenField, hl] at h
      | null =>
        refine ⟨fun _ => by simp [hs], ?_, fun tv htv => by simp [hs] at htv⟩
        intro hor
        rcases hor with hor | hor
        · exact absurd hor hs
        · simp [nonObjectBody] at hor
      | bool v =>
        refine ⟨fun _ => by simp [hs], ?_, fun tv htv => by simp [hs] at htv⟩
        intro hor
        rcases hor with hor | hor
        · exact absurd hor hs
        · simp [nonObjectBody] at hor
      | num n =>
        refine ⟨fun _ => by simp [hs], ?_, fun tv htv => by simp [hs] at htv⟩
        intro hor
        rcases hor with hor | hor
        · exact absurd hor hs
        · simp [nonObjectBody] at hor
      | str v =>
        refine ⟨fun _ => by simp [hs], ?_, fun tv htv => by simp [hs] at htv⟩
        intro hor
        rcases hor with hor | hor
        · exact absurd hor hs
        · simp [nonObjectBody] at hor
      | arr xs =>
        refine ⟨fun _ => by simp [hs], ?_, fun tv htv => by simp [hs] at htv⟩
        intro hor
        rcases hor with hor | hor
        · exact absurd hor hs
        · simp [nonObjectBody] at hor

/-- C7 witness: HTTP 200 with an empty-object body (no token field, not a
non-object body) makes the exchange fail with the typed
`RequestException`. -/
theorem claim_C7_token_exchange_failure_witness :
    ∃ e, (get_access_token plainOracle cfgEx stEx).1 = .error e ∧
      PyErr.isRequestException e = true :=
  (claim_C7_token_exchange_failure plainOracle cfgEx stEx
    (Or.inr rfl)).2.1 (Or.inr rfl)

/-! ## Concrete runs of the lookup and the batch operations -/

/-- C2: evaluated on a vendor payload whose course list is empty, the
wrapped `get_course_id` fails with the unguarded `IndexError` from
`['courses'][0]` — there is no typed not-found error anywhere on this
path. -/
theorem claim_C2_empty_courses_index_fault :
    (get_course_id emptyCoursesOracle cfgEx (.str "CS101") stEx).1
      = .error .indexError ∧
    PyErr.isRequestException .indexError = false :=
  ⟨rfl, rfl⟩

/-- C5: on a payload containing one course with id 4, the *body* of
`get_course_id` parses the id out of the response — but the wrapped
method, which is what callers invoke, then crashes with `AttributeError`
because `moodle_request_wrapper` calls `.json()` on the returned integer;
the lookup never returns the id to a caller. -/
theorem claim_C5_wrapped_lookup_crashes :
    (get_course_id_raw oneCourseOracle cfgEx (.str "CS101") stEx).1
      = .ok (.jsonV (.num 4)) ∧
    (get_course_id oneCourseOracle cfgEx (.str "CS101") stEx).1
      = .error .attributeError :=
  ⟨rfl, rfl⟩

/-- The lookup request issued for course key `CS101` from `stEx`. -/
def lookupReqCS101 : Request :=
  { meth := .get
    url := "http://m"
    qparams := [("wstoken", "TOK"),
      ("wsfunction", "core_course_get_courses_by_field"),
      ("field", "shortname"), ("value", "CS101"),
      ("moodlewsrestformat", "json")]
    data := [] }

/-- C8: `update_items` on the spec's one-item batch does call the lookup
with value `CS101` (the only request ever issued), but then dies with the
wrapper's `AttributeError`; no `...[id]` key is injected and no POST with
`core_course_update_courses` is ever sent. -/
theorem claim_C8_update_crashes_before_post :
    (update_content_metadata oneCourseOracle cfgEx
        [("courses[0][shortname]", .str "CS101")] stEx).1
      = .error .attributeError ∧
    (update_content_metadata oneCourseOracle cfgEx
        [("courses[0][shortname]", .str "CS101")] stEx).2.1.calls
      = [lookupReqCS101] ∧
    (update_content_metadata oneCourseOracle cfgEx
        [("courses[0][shortname]", .str "CS101")] stEx).2.2
      = [("courses[0][shortname]", .str "CS101")] :=
  ⟨rfl, rfl, rfl⟩

/-- C9: the operations do not share the single fixed endpoint path.
`delete_items` (here on an empty batch, which avoids the lookup crash)
POSTs to `base ++ "?" ++ ids ++ MOODLE_API_PATH ++ "?" ++ params` — the
API path lands *after* the first query separator — and `lookup_course_id`
GETs the bare base URL with no API path at all. -/
theorem claim_C9_endpoint_paths :
    ((delete_content_metadata plainOracle cfgEx [] stEx).2.1.calls.map
        (fun r => r.url))
      = ["http://m?/webservice/rest/server.php?wstoken=TOK&moodlewsrestformat=json&wsfunction=core_course_delete_courses"] ∧
    ((get_course_id plainOracle cfgEx (.str "K") stEx).2.calls.map
        (fun r => r.url))
      = ["http://m"] :=
  ⟨rfl, rfl⟩

/-! ## The frame effect of `create_items` / `update_items` on the batch -/

theorem get_course_id_raw_shape (om : Oracle) (cfg : Config) (a : PyVal)
    (st : ClientState) :
    ∀ v, (get_course_id_raw om cfg a st).1 = .ok v → ∃ j, v = .jsonV j := by
  intro v h
  unfold get_course_id_raw doRequest at h
  dsimp only at h
  repeat' split at h
  all_goals simp_all
  exact ⟨_, h.symm⟩

theorem get_course_id_not_ok (om : Oracle) (cfg : Config) (a : PyVal)
    (st : ClientState) :
    ∀ v, (get_course_id om cfg a st).1 ≠ .ok v := by
  intro v h
  unfold get_course_id moodle_request_wrapper at h
  rcases h1 : ensureToken (get_access_token om cfg) st with ⟨e1, st1⟩
  rw [h1] at h
  cases e1 with
  | error e => simp at h
  | ok u =>
    cases u
    dsimp only at h
    rcases h2 : get_course_id_raw om cfg a st1 with ⟨e2, st2⟩
    rw [h2] at h
    cases e2 with
    | error e => simp at h
    | ok val =>
      obtain ⟨j, hj⟩ := get_course_id_raw_shape om cfg a st1 val (by rw [h2])
      subst hj
      simp [PyVal.jsonMethod] at h

theorem updateLoop_ok (om : Oracle) (cfg : Config) :
    ∀ (ks : List String) (st : ClientState) (d : Dict) (u : Unit)
      (st' : ClientState) (d' : Dict),
    updateLoop om cfg ks st d = (.ok u, st', d') →
    st' = st ∧ d' = d ∧ ∀ k ∈ ks, infixCheck shortnameChars k.data = false := by
  intro ks
  induction ks with
  | nil =>
    intro st d u st' d' h
    simp only [updateLoop] at h
    injection h with ha hb
    injection hb with hb1 hb2
    exact ⟨hb1.symm, hb2.symm, by simp⟩
  | cons k ks ih =>
    intro st d u st' d' h
    by_cases hk : infixCheck shortnameChars k.data = true
    · exfalso
      simp only [updateLoop, if_pos hk] at h
      rcases hlk : List.lookup k d with _ | v
      · rw [hlk] at h
        simp at h
      · rw [hlk] at h
        dsimp only at h
        rcases hg : get_course_id om cfg v st with ⟨eg, stg⟩
        rw [hg] at h
        cases eg with
        | error e => simp at h
        | ok idv =>
          have := get_course_id_not_ok om cfg v st idv
          rw [hg] at this
          exact this rfl
    · have hk' : infixCheck shortnameChars k.data = false := by
        simpa using hk
      simp only [updateLoop, hk'] at h
      obtain ⟨ha, hb, hc⟩ := ih st d u st' d' (by simpa using h)
      refine ⟨ha, hb, ?_⟩
      intro k' hk'mem
      rcases List.mem_cons.1 hk'mem with he | hm
      · subst he
        exact hk'
      · exact hc k' hm

theorem updateLoop_no_shortname (om : Oracle) (cfg : Config) :
    ∀ (ks : List String) (st : ClientState) (d : Dict),
    (∀ k ∈ ks, infixCheck shortnameChars k.data = false) →
    updateLoop om cfg ks st d = (.ok (), st, d) := by
  intro ks
  induction ks with
  | nil =>
    intro st d _
    rfl
  | cons k ks ih =>
    intro st d h
    have hk : infixCheck shortnameChars k.data = false :=
      h k (List.mem_cons_self _ _)
    simp only [updateLoop, hk]
    exact ih st d (fun k' hk' => h k' (List.mem_cons_of_mem _ hk'))

theorem dictSet_keys_subset (k : String) (v : PyVal) :
    ∀ (d : Dict) (k' : String), k' ∈ (dictSet d k v).map Prod.fst →
      k' = k ∨ k' ∈ d.map Prod.fst := by
  intro d
  induction d with
  | nil =>
    intro k' h
    simp [dictSet] at h
    exact Or.inl h
  | cons p rest ih =>
    intro k' h
    obtain ⟨k0, v0⟩ := p
    by_cases h0 : k0 = k
    · subst h0
      rw [show dictSet ((k0, v0) :: rest) k0 v = (k0, v) :: rest from by
        simp [dictSet]] at h
      simp only [List.map_cons, List.mem_cons] at h ⊢
      rcases h with he | hm
      · exact Or.inl he
      · exact Or.inr (Or.inr hm)
    · rw [show dictSet ((k0, v0) :: rest) k v = (k0, v0) :: dictSet rest k v from by
        simp [dictSet, h0]] at h
      simp only [List.map_cons, List.mem_cons] at h ⊢
      rcases h with he | hm
      · exact Or.inr (Or.inl he)
      · rcases ih k' hm with hl | hr
        · exact Or.inl hl
        · exact Or.inr (Or.inr hr)

/-- `'shortname' in 'wsfunction'` is false. -/
theorem wsfunction_no_shortname :
    infixCheck shortnameChars "wsfunction".data = false := rfl

theorem wrapper_ok_first_exec {σ : Type}
    (g : σ → ClientState → (Except PyErr PyVal) × ClientState × σ)
    (getTok : ClientState → (Except PyErr Json) × ClientState)
    (x : σ) (st : ClientState)
    (hok : ∃ v, (moodle_request_wrapper g getTok x st).1 = .ok v) :
    ∃ st1 r st2 x2, ensureToken getTok st = (.ok (), st1) ∧
      g x st1 = (.ok r, st2, x2) := by
  obtain ⟨v, hv⟩ := hok
  unfold moodle_request_wrapper at hv
  rcases h1 : ensureToken getTok st with ⟨e1, st1⟩
  rw [h1] at hv
  cases e1 with
  | error e => simp at hv
  | ok u =>
    cases u
    dsimp only at hv
    rcases h2 : g x st1 with ⟨e2, st2, x2⟩
    rw [h2] at hv
    cases e2 with
    | error e => simp at hv
    | ok r => exact ⟨st1, r, st2, x2, rfl, h2⟩

/-- If every successful execution of the wrapped method sets
`x['wsfunction'] = sel` on its argument dict and a wrapped call returns
normally, the final dict is the input dict with `wsfunction` set once or
(after a token retry) twice. -/
theorem wrapper_ok_dict
    (g : Dict → ClientState → (Except PyErr PyVal) × ClientState × Dict)
    (getTok : ClientState → (Except PyErr Json) × ClientState)
    (sel : String)
    (hg : ∀ x s, (∃ v, (g x s).1 = .ok v) →
        (g x s).2.2 = dictSet x "wsfunction" (.str sel))
    (d : Dict) (st : ClientState)
    (hok : ∃ v, (moodle_request_wrapper g getTok d st).1 = .ok v) :
    (moodle_request_wrapper g getTok d st).2.2
        = dictSet d "wsfunction" (.str sel) ∨
    (moodle_request_wrapper g getTok d st).2.2
        = dictSet (dictSet d "wsfunction" (.str sel)) "wsfunction" (.str sel) := by
  obtain ⟨v, hv⟩ := hok
  unfold moodle_request_wrapper at hv ⊢
  rcases h1 : ensureToken getTok st with ⟨e1, st1⟩
  rw [h1] at hv
  cases e1 with
  | error e => simp at hv
  | ok u =>
    cases u
    dsimp only at hv ⊢
    rcases h2 : g d st1 with ⟨e2, st2, x2⟩
    rw [h2] at hv
    cases e2 with
    | error e => simp at hv
    | ok r =>
      have hd1 : x2 = dictSet d "wsfunction" (.str sel) := by
        have hgg := hg d st1 ⟨r, by rw [h2]⟩
        rw [h2] at hgg
        exact hgg
      dsimp only at hv ⊢
      rcases h3 : r.jsonMethod with e3 | b
      · rw [h3] at hv
        simp at hv
      · rw [h3] at hv
        dsimp only at hv ⊢
        rcases h4 : b.dictGet "errorcode" with e4 | ec
        · rw [h4] at hv
          simp at hv
        · rw [h4] at hv
          dsimp only at hv ⊢
          by_cases h5 : isInvalidTokenCond ec = true
          · rw [if_pos h5] at hv ⊢
            rcases h6 : getTok st2 with ⟨e6, st6⟩
            rw [h6] at hv
            cases e6 with
            | error e => simp at hv
            | ok t =>
              dsimp only at hv ⊢
              right
              have hgg := hg x2 { st6 with token := t } ⟨v, hv⟩
              rw [hgg, hd1]
          · rw [if_neg h5] at hv ⊢
            dsimp only
            exact Or.inl hd1

theorem update_raw_ok_dict (om : Oracle) (cfg : Config) :
    ∀ x s, (∃ v, (update_content_metadata_raw om cfg x s).1 = .ok v) →
      (update_content_metadata_raw om cfg x s).2.2
        = dictSet x "wsfunction" (.str "core_course_update_courses") := by
  intro x s hok
  obtain ⟨v, hv⟩ := hok
  unfold update_content_metadata_raw at hv ⊢
  rcases hu : updateLoop om cfg (x.map Prod.fst) s x with ⟨eu, stU, dU⟩
  rw [hu] at hv
  cases eu with
  | error e => simp at hv
  | ok u =>
    obtain ⟨_, hdU, _⟩ := updateLoop_ok om cfg _ s x u stU dU hu
    dsimp only
    rw [hdU]

theorem update_ok_no_shortname (om : Oracle) (cfg : Config)
    (d : Dict) (st : ClientState)
    (hok : ∃ v, (update_content_metadata om cfg d st).1 = .ok v) :
    ∀ k ∈ d.map Prod.fst, infixCheck shortnameChars k.data = false := by
  obtain ⟨st1, r, st2, x2, h1, h2⟩ :=
    wrapper_ok_first_exec (update_content_metadata_raw om cfg)
      (get_access_token om cfg) d st hok
  unfold update_content_metadata_raw at h2
  rcases hu : updateLoop om cfg (d.map Prod.fst) st1 d with ⟨eu, stU, dU⟩
  rw [hu] at h2
  cases eu with
  | error e => simp at h2
  | ok u => exact (updateLoop_ok om cfg _ st1 d u stU dU hu).2.2

/-- C10: `create_items` and `update_items` mutate the caller's
encoded-batch dict in place (modelled by returning the final dict to the
caller): whenever the call returns, the caller's dict afterwards carries
the `wsfunction` key bound to the operation's function selector, plus —
for `update_items` — the injected `...[id]` key for every key containing
`shortname` (vacuously, since a call that resolves an id never returns
normally); every other key keeps its original binding. -/
theorem claim_C10_in_place_mutation (om : Oracle) (cfg : Config)
    (st : ClientState) (d : Dict) :
    ((∃ v, (create_content_metadata om cfg d st).1 = .ok v) →
      List.lookup "wsfunction" (create_content_metadata om cfg d st).2.2
          = some (.str "core_course_create_courses") ∧
      ∀ k, k ≠ "wsfunction" →
        List.lookup k (create_content_metadata om cfg d st).2.2
          = List.lookup k d) ∧
    ((∃ v, (update_content_metadata om cfg d st).1 = .ok v) →
      List.lookup "wsfunction" (update_content_metadata om cfg d st).2.2
          = some (.str "core_course_update_courses") ∧
      (∀ k, k ∈ d.map Prod.fst → infixCheck shortnameChars k.data = true →
        (List.lookup (pyReplace k "shortname" "id")
            (update_content_metadata om cfg d st).2.2).isSome = true) ∧
      ∀ k, k ≠ "wsfunction" →
        List.lookup k (update_content_metadata om cfg d st).2.2
          = List.lookup k d) := by
  constructor
  · intro hok
    have hg : ∀ x s,
        (∃ v, (create_content_metadata_raw om cfg x s).1 = .ok v) →
        (create_content_metadata_raw om cfg x s).2.2
          = dictSet x "wsfunction" (.str "core_course_create_courses") :=
      fun x s _ => rfl
    have hd := wrapper_ok_dict (create_content_metadata_raw om cfg)
      (get_access_token om cfg) "core_course_create_courses" hg d st hok
    unfold create_content_metadata
    rcases hd with hd | hd
    · rw [hd]
      exact ⟨lookup_dictSet_self _ _ _,
        fun k hk => lookup_dictSet_ne _ _ _ _ hk⟩
    · rw [hd]
      refine ⟨lookup_dictSet_self _ _ _, fun k hk => ?_⟩
      rw [lookup_dictSet_ne _ _ _ _ hk, lookup_dictSet_ne _ _ _ _ hk]
  · intro hok
    have hks := update_ok_no_shortname om cfg d st hok
    have hd := wrapper_ok_dict (update_content_metadata_raw om cfg)
      (get_access_token om cfg) "core_course_update_courses"
      (update_raw_ok_dict om cfg) d st hok
    unfold update_content_metadata
    have hvac : ∀ k, k ∈ d.map Prod.fst →
        infixCheck shortnameChars k.data = true → ∀ {P : Prop}, P := by
      intro k hk hinf
      rw [hks k hk] at hinf
      exact absurd hinf (by simp)
    rcases hd with hd | hd
    · rw [hd]
      exact ⟨lookup_dictSet_self _ _ _,
        fun k hk hinf => hvac k hk hinf,
        fun k hk => lookup_dictSet_ne _ _ _ _ hk⟩
    · rw [hd]
      refine ⟨lookup_dictSet_self _ _ _,
        fun k hk hinf => hvac k hk hinf, fun k hk => ?_⟩
      rw [lookup_dictSet_ne _ _ _ _ hk, lookup_dictSet_ne _ _ _ _ hk]

/-- C10 witness: a concrete run of both operations (vendor answers 200
with an empty object; the update batch has no `shortname` key, the one
situation in which `update_items` returns at all): afterwards the caller's
dict carries the respective `wsfunction` selector. -/
theorem claim_C10_in_place_mutation_witness :
    List.lookup "wsfunction"
        (create_content_metadata plainOracle cfgEx
          [("courses[0][fullname]", .str "X")] stEx).2.2
      = some (.str "core_course_create_courses") ∧
    List.lookup "wsfunction"
        (update_content_metadata plainOracle cfgEx
          [("courses[0][fullname]", .str "X")] stEx).2.2
      = some (.str "core_course_update_courses") :=
  ⟨((claim_C10_in_place_mutation plainOracle cfgEx stEx
      [("courses[0][fullname]", .str "X")]).1 ⟨_, rfl⟩).1,
   ((claim_C10_in_place_mutation plainOracle cfgEx stEx
      [("courses[0][fullname]", .str "X")]).2 ⟨_, rfl⟩).1⟩

end MoodleModel

